import Mathlib

/-!
Verification of the `PlayList` / `PipelineStats` playlist store
(`peekingduck/player/playlist.py`).

The Python code is shallowly embedded:
* Python values that may be either a `str` or a `pathlib.Path` are modelled by
  the type `Key`; `Key.toStr` models `str(x)` (a `Path` is identified with its
  canonical string form).
* The `_pipeline_stats` Python `dict` is modelled as an insertion-ordered
  association list with Python's dict semantics: `d[k] = v` updates the value
  in place (keeping the original key object) when `k` is present and appends
  otherwise; `d.pop(k)` removes the first (unique) matching entry and fails
  with `KeyError` when absent.
* Exceptions are modelled by the `Err` type; mutating methods return
  `Option Err × PlayList` (the state at the moment the call returns or the
  exception propagates -- the Python methods mutate nothing before raising).
* File-system queries are modelled by a view `fs : String → Option Int`
  mapping a canonical path to its modification time when the file exists.
* The YAML configuration file is modelled by the abstract document `Yaml`
  (serialization of strings round-trips, so the file is identified with the
  value it holds); an absent file is `none : Option Yaml`.
-/

namespace PlaylistSpec

/-- A Python value used as a pipeline reference: either a `str` or a
`pathlib.Path` (identified with its canonical string form). -/
inductive Key where
  | str (s : String)
  | path (s : String)
deriving DecidableEq

/-- Models Python `str(x)` on a reference: a string is itself, a `Path`
renders as its canonical string. -/
def Key.toStr : Key → String
  | .str s => s
  | .path s => s

/-- The exceptions the embedded code can raise.  The spec's error names map as
follows: `DuplicateReference` is the `ValueError` raised by `add_pipeline`,
`NotFound` the `ValueError` raised by `remove_pipeline` (and the `KeyError`
from `get_stats`), `IndexOutOfRange` the `ValueError` raised by
`__getitem__` / `__setitem__`, `MalformedConfig` the `KeyError` / `TypeError` /
`AssertionError` escaping from loading. -/
inductive Err where
  | valueErrorAddDuplicate
  | valueErrorRemoveMissing
  | valueErrorListRemove
  | valueErrorGetIndex
  | valueErrorSetIndex
  | keyError
  | typeError
  | assertionError
  | stopIteration
deriving DecidableEq

/-- A file-system view: canonical path string to modification time of the
file, when it exists. -/
abbrev FsView := String → Option Int

/-- Embeds `PipelineStats.__init__`: `_pipeline` (kept as its canonical
string), `_exist`, `_mod_datetime` (Python `None` when the file was absent at
computation time). -/
structure PipelineStats where
  pipeline : String
  exist : Bool
  mod_datetime_val : Option Int
deriving DecidableEq

/-- Models `datetime.fromtimestamp(t).strftime("%Y-%m-%d-%H:%M:%S")` for an
actual timestamp.  The calendar rendering itself is abstracted to a total
rendering of the timestamp (no claim inspects the produced text); what matters
to the claims is that `datetime.fromtimestamp` is applied unconditionally by
the accessor below and raises `TypeError` on `None`. -/
def strftimeOfTimestamp (t : Int) : String := toString t

/-- Embeds the `PipelineStats.mod_datetime` property:
`datetime.fromtimestamp(self._mod_datetime).strftime(...)`.  When
`_mod_datetime` is `None` (file absent at stats-computation time),
`datetime.fromtimestamp(None)` raises `TypeError`. -/
def PipelineStats.mod_datetime (s : PipelineStats) : Except Err String :=
  match s.mod_datetime_val with
  | none => .error .typeError
  | some t => .ok (strftimeOfTimestamp t)

/-- Embeds `PlayList._make_pipeline_stats`: checks existence of the file at
the canonical path and records its modification time when present. -/
def make_pipeline_stats (fs : FsView) (pipeline : String) : PipelineStats :=
  match fs pipeline with
  | some t => ⟨pipeline, true, some t⟩
  | none => ⟨pipeline, false, none⟩

/-- The `_pipeline_stats` Python dict: an insertion-ordered association
list. -/
abbrev StatsDict := List (Key × PipelineStats)

/-- The keys of the stats dict, in insertion order. -/
def dictKeys (d : StatsDict) : List Key := d.map Prod.fst

/-- Python `k in d`. -/
def dictContains (d : StatsDict) (k : Key) : Bool := decide (k ∈ dictKeys d)

/-- Python `d[k] = v`: update in place (keeping the stored key object) when
present, append otherwise. -/
def dictSet (d : StatsDict) (k : Key) (v : PipelineStats) : StatsDict :=
  if k ∈ dictKeys d then d.map (fun kv => if kv.1 = k then (kv.1, v) else kv)
  else d ++ [(k, v)]

/-- Python `d.pop(k)` without default: `none` models the `KeyError` raised on
an absent key (in which case the dict is not mutated). -/
def dictPop (d : StatsDict) (k : Key) : Option StatsDict :=
  if k ∈ dictKeys d then some (d.eraseP (fun kv => decide (kv.1 = k))) else none

/-- Python `d[k]` lookup, `none` modelling `KeyError`. -/
def dictFind (d : StatsDict) (k : Key) : Option PipelineStats :=
  (d.find? (fun kv => decide (kv.1 = k))).map Prod.snd

/-- The in-memory state of a `PlayList`: the ordered `_pipeline_list` and the
`_pipeline_stats` dict. -/
structure PlayList where
  pipeline_list : List Key
  pipeline_stats : StatsDict
deriving DecidableEq

namespace PlayList

/-- The store produced by construction against an absent configuration file
(empty ordered sequence, empty stats cache). -/
def empty : PlayList := ⟨[], []⟩

/-- Embeds `PlayList.__contains__`: `str(item) in self._pipeline_stats`. -/
def contains_item (pl : PlayList) (item : Key) : Bool :=
  dictContains pl.pipeline_stats (Key.str item.toStr)

/-- Embeds `PlayList.get_stats`: a raw dict lookup with the argument as
given (no canonicalization of the key). -/
def get_stats (pl : PlayList) (pipeline : Key) : Except Err PipelineStats :=
  match dictFind pl.pipeline_stats pipeline with
  | some s => .ok s
  | none => .error .keyError

/-- Embeds `PlayList.add_pipeline`: reject when `str(pipeline_path)` is
already a stats key, otherwise append the canonical string to the list and
store freshly computed stats under it. -/
def add_pipeline (fs : FsView) (pl : PlayList) (p : Key) : Option Err × PlayList :=
  let pstr := Key.str p.toStr
  if pl.contains_item p then (some .valueErrorAddDuplicate, pl)
  else
    (none, ⟨pl.pipeline_list ++ [pstr],
            dictSet pl.pipeline_stats pstr (make_pipeline_stats fs p.toStr)⟩)

/-- Models Python `list.remove(x)` succeeding: drop the first occurrence. -/
def listRemoveFirst : List Key → Key → List Key
  | [], _ => []
  | x :: xs, k => if x = k then xs else x :: listRemoveFirst xs k

/-- Embeds `PlayList.remove_pipeline`: reject when `str(pipeline_path)` is
not a stats key; otherwise `list.remove` (first occurrence, `ValueError` when
absent from the list) then `dict.pop`. -/
def remove_pipeline (pl : PlayList) (p : Key) : Option Err × PlayList :=
  let pstr := Key.str p.toStr
  if ¬ pl.contains_item p then (some .valueErrorRemoveMissing, pl)
  else if pstr ∉ pl.pipeline_list then (some .valueErrorListRemove, pl)
  else
    match dictPop pl.pipeline_stats pstr with
    | none => (some .keyError, ⟨listRemoveFirst pl.pipeline_list pstr, pl.pipeline_stats⟩)
    | some d => (none, ⟨listRemoveFirst pl.pipeline_list pstr, d⟩)

/-- Embeds `PlayList.__getitem__`: guard `0 <= i < len(pipeline_list)`,
`ValueError` outside that range. -/
def getitem (pl : PlayList) (i : Int) : Except Err Key :=
  if h : 0 ≤ i ∧ i < (pl.pipeline_list.length : Int) then
    .ok (pl.pipeline_list.get ⟨i.toNat, by omega⟩)
  else .error .valueErrorGetIndex

/-- Embeds `PlayList.__setitem__`: guard `0 <= i < len(pipeline_list)`; then
pop the stats of the old entry, overwrite position `i` with `value` as given,
and store freshly computed stats under `value` (no duplicate check). -/
def setitem (fs : FsView) (pl : PlayList) (i : Int) (v : Key) : Option Err × PlayList :=
  if h : 0 ≤ i ∧ i < (pl.pipeline_list.length : Int) then
    let old := pl.pipeline_list.get ⟨i.toNat, by omega⟩
    match dictPop pl.pipeline_stats old with
    | none => (some .keyError, pl)
    | some d =>
        (none, ⟨pl.pipeline_list.set i.toNat v,
                dictSet d v (make_pipeline_stats fs v.toStr)⟩)
  else (some .valueErrorSetIndex, pl)

/-- Embeds `PlayList.__next__` given the current `_iter_idx`: increment, and
return the element at the new index while it is below the list length
(`__iter__` initializes the index to `-1`, so the incremented index is never
negative). -/
def pyNext (pl : PlayList) (iterIdx : Int) : Except Err (Key × Int) :=
  let i := iterIdx + 1
  if h : 0 ≤ i ∧ i < (pl.pipeline_list.length : Int) then
    .ok (pl.pipeline_list.get ⟨i.toNat, by omega⟩, i)
  else .error .stopIteration

/-- Runs the iterator protocol to exhaustion, collecting the yielded
references (`fuel` bounds the number of `__next__` calls). -/
def iterCollect (pl : PlayList) : Int → Nat → List Key
  | _, 0 => []
  | i, fuel + 1 =>
    match pl.pyNext i with
    | .ok (x, j) => x :: iterCollect pl j fuel
    | .error _ => []

/-- Full iteration of the store as produced by `for x in playlist`:
`__iter__` sets the index to `-1`, then `__next__` runs to `StopIteration`. -/
def iterateAll (pl : PlayList) : List Key :=
  iterCollect pl (-1) (pl.pipeline_list.length + 1)

end PlayList

/-- The store invariant of the spec: the ordered sequence has no duplicates,
the stats cache has no duplicate keys, each collection's members are exactly
the other's, and the two collections have the same size. -/
def store_invariant (pl : PlayList) : Prop :=
  pl.pipeline_list.Nodup ∧
  (dictKeys pl.pipeline_stats).Nodup ∧
  (∀ k ∈ pl.pipeline_list, k ∈ dictKeys pl.pipeline_stats) ∧
  (∀ k ∈ dictKeys pl.pipeline_stats, k ∈ pl.pipeline_list) ∧
  pl.pipeline_stats.length = pl.pipeline_list.length

instance (pl : PlayList) : Decidable (store_invariant pl) := by
  unfold store_invariant; infer_instance

/-! ### The configuration file: YAML documents, loading and saving -/

/-- An abstract YAML document as produced by `yaml.safe_load` (mapping keys
restricted to strings, which is all this configuration file uses). -/
inductive Yaml where
  | null
  | bool (b : Bool)
  | int (n : Int)
  | str (s : String)
  | list (xs : List Yaml)
  | map (kvs : List (String × Yaml))

/-- Python `==` restricted to the hashable scalar values that can be dict
keys here (`None`, booleans, integers, strings).  Python's cross-type
numeric/boolean equality (`1 == True`) is not modelled; no claim depends on
it, and the affected inputs error under both behaviours. -/
def scalarEq : Yaml → Yaml → Bool
  | .null, .null => true
  | .bool a, .bool b => a == b
  | .int a, .int b => a == b
  | .str a, .str b => a == b
  | _, _ => false

/-- Whether a value can be a Python dict key (lists and dicts are
unhashable). -/
def hashableB : Yaml → Bool
  | .list _ => false
  | .map _ => false
  | _ => true

/-- First value under a key in a parsed mapping (parsed Python dicts have
unique keys). -/
def lookupStr (kvs : List (String × Yaml)) (k : String) : Option Yaml :=
  (kvs.find? (fun kv => kv.1 == k)).map Prod.snd

/-- Python `len(x)` on the shapes that can reach it here. -/
def pyLen : Yaml → Except Err Nat
  | .list xs => .ok xs.length
  | .str s => .ok s.length
  | .map kvs => .ok kvs.length
  | _ => .error .typeError

/-- Iterating a Python value to collect dict keys, as `dict.fromkeys` does:
a list yields its elements (`TypeError` on an unhashable element), a string
its characters, a dict its keys; scalars are not iterable. -/
def pyIterKeys : Yaml → Except Err (List Yaml)
  | .list xs => if xs.all hashableB then .ok xs else .error .typeError
  | .str s => .ok (s.toList.map (fun c => .str (String.mk [c])))
  | .map kvs => .ok (kvs.map (fun kv => .str kv.1))
  | _ => .error .typeError

/-- Deduplication keeping first occurrences, as iterated dict insertion
does (`seen` accumulates the keys already inserted). -/
def dedupFirstAux (seen : List Yaml) : List Yaml → List Yaml
  | [] => []
  | x :: xs =>
    if seen.any (fun y => scalarEq x y) then dedupFirstAux seen xs
    else x :: dedupFirstAux (x :: seen) xs

/-- Deduplication keeping first occurrences. -/
def dedupFirst (xs : List Yaml) : List Yaml := dedupFirstAux [] xs

/-- The stats dict as built during loading, keyed by the raw loaded values
(`dict.fromkeys` initializes every value to `None`). -/
abbrev YDict := List (Yaml × Option PipelineStats)

/-- Keys of the loading-time stats dict. -/
def yKeys (d : YDict) : List Yaml := d.map Prod.fst

/-- Python `k in d` for the loading-time dict (a key test). -/
def yContains (d : YDict) (k : Yaml) : Bool := (yKeys d).any (fun y => scalarEq y k)

/-- Python `d[k] = v` for the loading-time dict: update in place (keeping
the stored key object) when present, append otherwise. -/
def yDictSet (d : YDict) (k : Yaml) (v : Option PipelineStats) : YDict :=
  if yContains d k then d.map (fun kv => if scalarEq kv.1 k then (kv.1, v) else kv)
  else d ++ [(k, v)]

/-- `dict.fromkeys(ks, None)`. -/
def fromkeysNone (ks : List Yaml) : YDict := (dedupFirst ks).map (fun k => (k, none))

/-- The loop of `PlayList._verify_pipeline_files`: for each element of the
loaded value (in iteration order, duplicates included), compute its stats and
store them under it.  `Path(pipeline)` raises `TypeError` on a non-string
element. -/
def verifyLoop (fs : FsView) : List Yaml → YDict → Except Err YDict
  | [], d => .ok d
  | .str s :: ks, d => verifyLoop fs ks (yDictSet d (.str s) (some (make_pipeline_stats fs s)))
  | _ :: _, _ => .error .typeError

/-- Embeds `PlayList._read_playlist_file`: an absent file yields `[]`;
otherwise `yaml.safe_load(file)["playlist"]` -- `TypeError` when the parsed
document is not a mapping, `KeyError` when the `playlist` key is missing. -/
def read_playlist_file (file : Option Yaml) : Except Err Yaml :=
  match file with
  | none => .ok (.list [])
  | some (.map kvs) =>
    match lookupStr kvs "playlist" with
    | some v => .ok v
    | none => .error .keyError
  | some _ => .error .typeError

/-- The state `load_playlist_file` leaves behind: `_pipeline_list` holds the
raw loaded value, `_pipeline_stats` the dict built by
`_verify_pipeline_files`. -/
structure RawLoaded where
  pipeline_list_raw : Yaml
  pipeline_stats_raw : YDict

/-- Embeds `PlayList.load_playlist_file` (with `_verify_pipeline_files`):
read the file, assign the raw value to `_pipeline_list`, build
`dict.fromkeys(value, None)`, assert its size equals `len(value)`, then
recompute stats for every element. -/
def load_playlist_file (fs : FsView) (file : Option Yaml) : Except Err RawLoaded :=
  match read_playlist_file file with
  | .error e => .error e
  | .ok v =>
    match pyIterKeys v with
    | .error e => .error e
    | .ok ks =>
      match pyLen v with
      | .error e => .error e
      | .ok n =>
        if (fromkeysNone ks).length = n then
          match verifyLoop fs ks (fromkeysNone ks) with
          | .error e => .error e
          | .ok d => .ok ⟨v, d⟩
        else .error .assertionError

/-- Embeds the document written by `PlayList.save_playlist_file`:
`yaml.dump({"playlist": self._pipeline_list})`.  Stated for stores whose
entries are strings (every entry stored through the API is the canonical
string), where each entry serializes as itself. -/
def save_playlist_yaml (pl : PlayList) : Yaml :=
  .map [("playlist", .list (pl.pipeline_list.map (fun k => Yaml.str k.toStr)))]

/-! ### The on-disk effect of saving -/

/-- Observable content of the configuration file: absent, truncated-empty
(just after `open(path, "w")`), or a complete document. -/
inductive FileContent where
  | absent
  | emptyContent
  | content (y : Yaml)

/-- The file operations `save_playlist_file` performs, in order:
`open(self.playlist_path, "w")` truncates the file, then `yaml.dump` writes
the serialized document. -/
inductive FsOp where
  | openTruncate
  | writeAll (y : Yaml)

/-- Effect of one file operation on the file's content. -/
def applyFsOp (_fc : FileContent) : FsOp → FileContent
  | .openTruncate => .emptyContent
  | .writeAll y => .content y

/-- Content after a sequence of file operations. -/
def runFsOps (fc : FileContent) : List FsOp → FileContent :=
  List.foldl applyFsOp fc

/-- The operation trace of `PlayList.save_playlist_file`. -/
def save_ops (pl : PlayList) : List FsOp :=
  [.openTruncate, .writeAll (save_playlist_yaml pl)]

/-! ### Concrete instances used by the scenario theorems -/

/-- Whether a reference value is a plain string (rather than a `Path`). -/
def Key.isStrB : Key → Bool
  | .str _ => true
  | .path _ => false

/-- A file-system view on which no file exists. -/
def fs_empty : FsView := fun _ => none

/-- The store reached from the empty store by `add_pipeline("a")` then
`add_pipeline("b")` (no files exist). -/
def example_store_ab : PlayList :=
  (PlayList.add_pipeline fs_empty
    ((PlayList.add_pipeline fs_empty PlayList.empty (Key.str "a")).2)
    (Key.str "b")).2

/-- The store reached from the empty store by adding `a.yml`, `b.yml`,
`c.yml` in that order. -/
def scenario_abc : PlayList :=
  (PlayList.add_pipeline fs_empty
    ((PlayList.add_pipeline fs_empty
      ((PlayList.add_pipeline fs_empty PlayList.empty (Key.str "a.yml")).2)
      (Key.str "b.yml")).2)
    (Key.str "c.yml")).2

/-- The store reached from the empty store by adding the `Path`-valued
reference `Path("a.yml")`. -/
def store_with_path : PlayList :=
  (PlayList.add_pipeline fs_empty PlayList.empty (Key.path "a.yml")).2

/-- A configuration file holding a previously saved one-entry playlist. -/
def old_playlist_doc : FileContent :=
  .content (.map [("playlist", .list [.str "old.yml"])])

/-! ### Helper lemmas -/

open PlayList

theorem dictKeys_length (d : StatsDict) : (dictKeys d).length = d.length :=
  List.length_map _ _

theorem dictKeys_dictSet_of_mem {d : StatsDict} {k : Key} (h : k ∈ dictKeys d) (v : PipelineStats) :
    dictKeys (dictSet d k v) = dictKeys d := by
  unfold dictSet
  rw [if_pos h]
  simp only [dictKeys, List.map_map]
  apply List.map_congr_left
  intro kv _
  by_cases hk : kv.1 = k <;> simp [hk]

theorem dictKeys_dictSet_of_not_mem {d : StatsDict} {k : Key} (h : k ∉ dictKeys d) (v : PipelineStats) :
    dictKeys (dictSet d k v) = dictKeys d ++ [k] := by
  unfold dictSet
  rw [if_neg h]
  simp [dictKeys]

theorem eraseP_eq_filter_of_keysNodup {d : StatsDict} (h : (dictKeys d).Nodup) (k : Key) :
    d.eraseP (fun kv => decide (kv.1 = k)) = d.filter (fun kv => ! decide (kv.1 = k)) := by
  induction d with
  | nil => rfl
  | cons kv d ih =>
    simp only [dictKeys, List.map_cons, List.nodup_cons] at h
    by_cases hk : kv.1 = k
    · subst hk
      rw [List.eraseP_cons_of_pos (by simp), List.filter_cons_of_neg (by simp)]
      exact (List.filter_eq_self.mpr (fun e he => by
        simp only [Bool.not_eq_true', decide_eq_false_iff_not]
        intro hekv
        exact h.1 (hekv ▸ List.mem_map_of_mem Prod.fst he))).symm
    · rw [List.eraseP_cons_of_neg (by simp [hk]), List.filter_cons_of_pos (by simp [hk])]
      rw [ih h.2]

theorem listRemoveFirst_eq_filter {l : List Key} (h : l.Nodup) (k : Key) :
    listRemoveFirst l k = l.filter (fun x => ! decide (x = k)) := by
  induction l with
  | nil => rfl
  | cons x xs ih =>
    simp only [List.nodup_cons] at h
    by_cases hx : x = k
    · subst hx
      simp only [listRemoveFirst, if_pos]
      rw [List.filter_cons_of_neg (by simp)]
      exact (List.filter_eq_self.mpr (fun e he => by
        simp only [Bool.not_eq_true', decide_eq_false_iff_not]
        exact fun hek => h.1 (hek ▸ he))).symm
    · simp only [listRemoveFirst, if_neg hx]
      rw [List.filter_cons_of_pos (by simp [hx]), ih h.2]

theorem mem_set_iff_of_lt {l : List Key} {i : Nat} (h : i < l.length) (v k : Key) :
    k ∈ l.set i v ↔ k = v ∨ k ∈ l.eraseIdx i := by
  induction l generalizing i with
  | nil => simp at h
  | cons x xs ih =>
    cases i with
    | zero => simp [List.set, List.eraseIdx]
    | succ i =>
      simp only [List.set, List.eraseIdx, List.mem_cons]
      rw [ih (by simpa using h)]
      tauto

theorem mem_eraseIdx_iff_of_nodup {l : List Key} (hl : l.Nodup) {i : Nat} (h : i < l.length) (k : Key) :
    k ∈ l.eraseIdx i ↔ k ∈ l ∧ k ≠ l.get ⟨i, h⟩ := by
  induction l generalizing i with
  | nil => simp at h
  | cons x xs ih =>
    simp only [List.nodup_cons] at hl
    cases i with
    | zero =>
      simp only [List.eraseIdx, List.get, List.mem_cons]
      constructor
      · intro hk
        exact ⟨Or.inr hk, fun he => hl.1 (he ▸ hk)⟩
      · rintro ⟨hk | hk, hne⟩
        · exact absurd hk hne
        · exact hk
    | succ i =>
      have hi : i < xs.length := by simpa using h
      simp only [List.eraseIdx, List.mem_cons, List.get]
      rw [ih hl.2 hi]
      have hx : x ≠ xs.get ⟨i, hi⟩ := fun he => hl.1 (he ▸ List.get_mem xs i hi)
      constructor
      · rintro (hk | ⟨hk, hne⟩)
        · exact ⟨Or.inl hk, hk ▸ hx⟩
        · exact ⟨Or.inr hk, hne⟩
      · rintro ⟨hk | hk, hne⟩
        · exact Or.inl hk
        · exact Or.inr ⟨hk, hne⟩

theorem nodup_set_of_not_mem_eraseIdx {l : List Key} (hl : l.Nodup) {i : Nat}
    {v : Key} (hv : v ∉ l.eraseIdx i) : (l.set i v).Nodup := by
  induction l generalizing i with
  | nil => simp
  | cons x xs ih =>
    simp only [List.nodup_cons] at hl
    cases i with
    | zero =>
      simp only [List.eraseIdx] at hv
      simp only [List.set, List.nodup_cons]
      exact ⟨hv, hl.2⟩
    | succ i =>
      simp only [List.eraseIdx, List.mem_cons, not_or] at hv
      simp only [List.set, List.nodup_cons]
      refine ⟨fun hx => ?_, ih hl.2 hv.2⟩
      rcases List.mem_or_eq_of_mem_set hx with hmem | heq
      · exact hl.1 hmem
      · exact hv.1 heq.symm


theorem dictKeys_filter (d : StatsDict) (k : Key) :
    dictKeys (d.filter (fun kv => ! decide (kv.1 = k))) =
      (dictKeys d).filter (fun x => ! decide (x = k)) := by
  induction d with
  | nil => rfl
  | cons kv d ih =>
    by_cases hk : kv.1 = k <;>
      simp only [dictKeys, List.map_cons, List.filter_cons, hk, decide_True, decide_False,
        Bool.not_true, Bool.not_false, if_true, if_false] <;>
      simpa [dictKeys] using ih

theorem store_invariant_of {pl : PlayList}
    (h1 : pl.pipeline_list.Nodup) (h2 : (dictKeys pl.pipeline_stats).Nodup)
    (h3 : ∀ k, k ∈ pl.pipeline_list ↔ k ∈ dictKeys pl.pipeline_stats) :
    store_invariant pl := by
  refine ⟨h1, h2, fun k hk => (h3 k).mp hk, fun k hk => (h3 k).mpr hk, ?_⟩
  rw [← dictKeys_length]
  exact ((List.perm_ext_iff_of_nodup h2 h1).mpr (fun a => (h3 a).symm)).length_eq

theorem contains_item_true_iff (pl : PlayList) (p : Key) :
    pl.contains_item p = true ↔ Key.str p.toStr ∈ dictKeys pl.pipeline_stats := by
  unfold PlayList.contains_item dictContains
  exact decide_eq_true_iff

theorem add_duplicate_rejected (fs : FsView) (pl : PlayList) (p : Key)
    (h : store_invariant pl) (hp : Key.str p.toStr ∈ pl.pipeline_list) :
    PlayList.add_pipeline fs pl p = (some .valueErrorAddDuplicate, pl) := by
  have hc : pl.contains_item p = true := (contains_item_true_iff pl p).mpr (h.2.2.1 _ hp)
  unfold PlayList.add_pipeline
  simp [hc]

theorem add_ok_invariant (fs : FsView) (pl : PlayList) (p : Key) (pl' : PlayList)
    (h : store_invariant pl)
    (hok : PlayList.add_pipeline fs pl p = (none, pl')) : store_invariant pl' := by
  unfold PlayList.add_pipeline at hok
  cases hc : pl.contains_item p with
  | true => simp [hc] at hok
  | false =>
    simp only [hc, Bool.false_eq_true, if_false, Prod.mk.injEq] at hok
    have hkeys : Key.str p.toStr ∉ dictKeys pl.pipeline_stats := by
      intro hmem
      rw [(contains_item_true_iff pl p).mpr hmem] at hc
      exact Bool.true_eq_false.mp hc
    have hlist : Key.str p.toStr ∉ pl.pipeline_list := fun hmem => hkeys (h.2.2.1 _ hmem)
    obtain ⟨-, hpl⟩ := hok
    subst hpl
    apply store_invariant_of
    · simpa [List.nodup_append] using ⟨h.1, hlist⟩
    · rw [dictKeys_dictSet_of_not_mem hkeys]
      simpa [List.nodup_append] using ⟨h.2.1, hkeys⟩
    · intro k
      rw [dictKeys_dictSet_of_not_mem hkeys]
      simp only [List.mem_append, List.mem_singleton]
      constructor
      · rintro (hk | hk)
        · exact Or.inl (h.2.2.1 _ hk)
        · exact Or.inr hk
      · rintro (hk | hk)
        · exact Or.inl (h.2.2.2.1 _ hk)
        · exact Or.inr hk

theorem remove_absent_spec (pl : PlayList) (p : Key) (h : store_invariant pl)
    (hp : Key.str p.toStr ∉ pl.pipeline_list) :
    PlayList.remove_pipeline pl p = (some .valueErrorRemoveMissing, pl) := by
  have hkeys : Key.str p.toStr ∉ dictKeys pl.pipeline_stats :=
    fun hmem => hp (h.2.2.2.1 _ hmem)
  have hc : pl.contains_item p = false := by
    cases hcc : pl.contains_item p with
    | false => rfl
    | true => exact absurd ((contains_item_true_iff pl p).mp hcc) hkeys
  unfold PlayList.remove_pipeline
  simp [hc]

theorem remove_present_spec (pl : PlayList) (p : Key) (h : store_invariant pl)
    (hp : Key.str p.toStr ∈ pl.pipeline_list) :
    PlayList.remove_pipeline pl p =
      (none, ⟨pl.pipeline_list.filter (fun x => ! decide (x = Key.str p.toStr)),
              pl.pipeline_stats.filter (fun kv => ! decide (kv.1 = Key.str p.toStr))⟩) := by
  have hkeys : Key.str p.toStr ∈ dictKeys pl.pipeline_stats := h.2.2.1 _ hp
  have hc : pl.contains_item p = true := (contains_item_true_iff pl p).mpr hkeys
  have hpop : dictPop pl.pipeline_stats (Key.str p.toStr) =
      some (pl.pipeline_stats.filter (fun kv => ! decide (kv.1 = Key.str p.toStr))) := by
    unfold dictPop
    rw [if_pos hkeys, eraseP_eq_filter_of_keysNodup h.2.1]
  unfold PlayList.remove_pipeline
  simp only [hc, not_true_eq_false, if_false, hp, hpop, listRemoveFirst_eq_filter h.1]

theorem remove_ok_invariant (pl : PlayList) (p : Key) (pl' : PlayList)
    (h : store_invariant pl)
    (hok : PlayList.remove_pipeline pl p = (none, pl')) : store_invariant pl' := by
  by_cases hp : Key.str p.toStr ∈ pl.pipeline_list
  · rw [remove_present_spec pl p h hp] at hok
    have hpl : pl' =
        ⟨pl.pipeline_list.filter (fun x => ! decide (x = Key.str p.toStr)),
         pl.pipeline_stats.filter (fun kv => ! decide (kv.1 = Key.str p.toStr))⟩ := by
      have h2 := congrArg Prod.snd hok
      exact h2.symm
    subst hpl
    apply store_invariant_of
    · exact h.1.filter _
    · rw [dictKeys_filter]
      exact h.2.1.filter _
    · intro k
      rw [dictKeys_filter]
      simp only [List.mem_filter, Bool.not_eq_true', decide_eq_false_iff_not]
      exact and_congr_left fun _ => ⟨fun hk => h.2.2.1 _ hk, fun hk => h.2.2.2.1 _ hk⟩
  · rw [remove_absent_spec pl p h hp] at hok
    exact absurd (congrArg Prod.fst hok) (by simp)

theorem getitem_spec (pl : PlayList) (i : Int) :
    (¬ (0 ≤ i ∧ i < (pl.pipeline_list.length : Int)) →
        PlayList.getitem pl i = .error .valueErrorGetIndex) ∧
    (∀ hin : 0 ≤ i ∧ i < (pl.pipeline_list.length : Int),
        PlayList.getitem pl i = .ok (pl.pipeline_list.get ⟨i.toNat, by omega⟩)) := by
  constructor
  · intro hni
    unfold PlayList.getitem
    rw [dif_neg hni]
  · intro hin
    unfold PlayList.getitem
    rw [dif_pos hin]

theorem setitem_out_of_range (fs : FsView) (pl : PlayList) (i : Int) (v : Key)
    (hni : ¬ (0 ≤ i ∧ i < (pl.pipeline_list.length : Int))) :
    PlayList.setitem fs pl i v = (some .valueErrorSetIndex, pl) := by
  unfold PlayList.setitem
  rw [dif_neg hni]

theorem setitem_in_range_spec (fs : FsView) (pl : PlayList) (i : Int) (v : Key)
    (h : store_invariant pl) (hin : 0 ≤ i ∧ i < (pl.pipeline_list.length : Int)) :
    PlayList.setitem fs pl i v =
      (none, ⟨pl.pipeline_list.set i.toNat v,
              dictSet
                (pl.pipeline_stats.filter
                  (fun kv => ! decide (kv.1 = pl.pipeline_list.get ⟨i.toNat, by omega⟩)))
                v (make_pipeline_stats fs v.toStr)⟩) := by
  have hlt : i.toNat < pl.pipeline_list.length := by omega
  have hold : pl.pipeline_list.get ⟨i.toNat, hlt⟩ ∈ pl.pipeline_list :=
    List.get_mem _ _ _
  have hkeys : pl.pipeline_list.get ⟨i.toNat, hlt⟩ ∈ dictKeys pl.pipeline_stats :=
    h.2.2.1 _ hold
  have hpop : dictPop pl.pipeline_stats (pl.pipeline_list.get ⟨i.toNat, hlt⟩) =
      some (pl.pipeline_stats.filter
        (fun kv => ! decide (kv.1 = pl.pipeline_list.get ⟨i.toNat, hlt⟩))) := by
    unfold dictPop
    rw [if_pos hkeys, eraseP_eq_filter_of_keysNodup h.2.1]
  unfold PlayList.setitem
  rw [dif_pos hin]
  simp only [hpop]

theorem set_ok_invariant (fs : FsView) (pl : PlayList) (i : Int) (v : Key) (pl' : PlayList)
    (h : store_invariant pl)
    (hv : v ∉ pl.pipeline_list.eraseIdx i.toNat)
    (hok : PlayList.setitem fs pl i v = (none, pl')) : store_invariant pl' := by
  by_cases hin : 0 ≤ i ∧ i < (pl.pipeline_list.length : Int)
  case neg =>
    rw [setitem_out_of_range fs pl i v hin] at hok
    exact absurd (congrArg Prod.fst hok) (by simp)
  case pos =>
  have hlt : i.toNat < pl.pipeline_list.length := by omega
  rw [setitem_in_range_spec fs pl i v h hin] at hok
  have hpl : pl' = ⟨pl.pipeline_list.set i.toNat v,
      dictSet
        (pl.pipeline_stats.filter
          (fun kv => ! decide (kv.1 = pl.pipeline_list.get ⟨i.toNat, hlt⟩)))
        v (make_pipeline_stats fs v.toStr)⟩ :=
    (congrArg Prod.snd hok).symm
  subst hpl
  set old := pl.pipeline_list.get ⟨i.toNat, hlt⟩ with hold_def
  have hvk : v ∉ (dictKeys pl.pipeline_stats).filter (fun x => ! decide (x = old)) := by
    intro hmem
    rw [List.mem_filter] at hmem
    obtain ⟨hvkeys, hvne⟩ := hmem
    simp only [Bool.not_eq_true', decide_eq_false_iff_not] at hvne
    have hvl : v ∈ pl.pipeline_list := h.2.2.2.1 _ hvkeys
    exact hv ((mem_eraseIdx_iff_of_nodup h.1 hlt v).mpr ⟨hvl, hvne⟩)
  have hvd : v ∉ dictKeys (pl.pipeline_stats.filter (fun kv => ! decide (kv.1 = old))) := by
    rw [dictKeys_filter]
    exact hvk
  apply store_invariant_of
  · exact nodup_set_of_not_mem_eraseIdx h.1 hv
  · rw [dictKeys_dictSet_of_not_mem hvd, dictKeys_filter, List.nodup_append]
    refine ⟨h.2.1.filter _, List.nodup_singleton v, ?_⟩
    intro a ha hamem
    rw [List.mem_singleton] at hamem
    exact hvk (hamem ▸ ha)
  · intro k
    rw [dictKeys_dictSet_of_not_mem hvd, dictKeys_filter]
    rw [mem_set_iff_of_lt hlt v k, mem_eraseIdx_iff_of_nodup h.1 hlt k]
    simp only [List.mem_append, List.mem_singleton, List.mem_filter,
      Bool.not_eq_true', decide_eq_false_iff_not]
    constructor
    · rintro (hk | ⟨hk, hne⟩)
      · exact Or.inr hk
      · exact Or.inl ⟨h.2.2.1 _ hk, hne⟩
    · rintro (⟨hk, hne⟩ | hk)
      · exact Or.inr ⟨h.2.2.2.1 _ hk, hne⟩
      · exact Or.inl hk

theorem yKeys_yDictSet_of_contains {d : YDict} {k : Yaml} (h : yContains d k = true)
    (v : Option PipelineStats) : yKeys (yDictSet d k v) = yKeys d := by
  unfold yDictSet
  rw [if_pos h]
  unfold yKeys
  rw [List.map_map]
  apply List.map_congr_left
  intro kv _
  by_cases hk : scalarEq kv.1 k = true <;> simp [hk]

theorem yContains_congr {d1 d2 : YDict} (h : yKeys d1 = yKeys d2) (k : Yaml) :
    yContains d1 k = yContains d2 k := by
  unfold yContains
  rw [h]

theorem yKeys_fromkeysNone (ks : List Yaml) : yKeys (fromkeysNone ks) = dedupFirst ks := by
  unfold fromkeysNone yKeys
  have hid : (Prod.fst ∘ fun k : Yaml => (k, (none : Option PipelineStats))) = id := rfl
  rw [List.map_map, hid, List.map_id]

theorem verifyLoop_map_str (fs : FsView) : ∀ (l : List String) (d : YDict),
    (∀ s ∈ l, yContains d (.str s) = true) →
    ∃ d2, verifyLoop fs (l.map .str) d = .ok d2 ∧ yKeys d2 = yKeys d := by
  intro l
  induction l with
  | nil => exact fun d _ => ⟨d, rfl, rfl⟩
  | cons x l ih =>
    intro d hd
    have hx : yContains d (.str x) = true := hd x (List.mem_cons_self x l)
    have hkeys : yKeys (yDictSet d (.str x) (some (make_pipeline_stats fs x))) = yKeys d :=
      yKeys_yDictSet_of_contains hx _
    obtain ⟨d2, hd2, hk2⟩ := ih (yDictSet d (.str x) (some (make_pipeline_stats fs x)))
      (fun s hs => (yContains_congr hkeys (.str s)).trans (hd s (List.mem_cons_of_mem x hs)))
    exact ⟨d2, hd2, hk2.trans hkeys⟩

theorem verifyLoop_ok_all_str (fs : FsView) : ∀ (ks : List Yaml) (d d2 : YDict),
    verifyLoop fs ks d = .ok d2 → ∀ e ∈ ks, ∃ s, e = .str s := by
  intro ks
  induction ks with
  | nil => intro d d2 _ e he; simp at he
  | cons k ks ih =>
    intro d d2 hok e he
    cases k with
    | str s =>
      rcases List.mem_cons.mp he with he | he
      · exact ⟨s, he⟩
      · exact ih _ d2 hok e he
    | null => exact absurd hok (by simp [verifyLoop])
    | bool b => exact absurd hok (by simp [verifyLoop])
    | int n => exact absurd hok (by simp [verifyLoop])
    | list xs => exact absurd hok (by simp [verifyLoop])
    | map kvs => exact absurd hok (by simp [verifyLoop])

theorem exists_map_str : ∀ {ks : List Yaml}, (∀ e ∈ ks, ∃ s, e = .str s) →
    ∃ l : List String, ks = l.map .str := by
  intro ks
  induction ks with
  | nil => exact fun _ => ⟨[], rfl⟩
  | cons e ks ih =>
    intro h
    obtain ⟨s, rfl⟩ := h e (List.mem_cons_self e ks)
    obtain ⟨l, rfl⟩ := ih (fun e he => h e (List.mem_cons_of_mem _ he))
    exact ⟨s :: l, rfl⟩

theorem dedupFirstAux_str_props (l : List String) : ∀ (seen : List Yaml),
    ∃ m : List String, dedupFirstAux seen (l.map .str) = m.map .str ∧
      m.Nodup ∧
      (∀ s ∈ m, seen.any (fun y => scalarEq (.str s) y) = false) ∧
      (∀ s ∈ l, s ∈ m ∨ seen.any (fun y => scalarEq (.str s) y) = true) := by
  induction l with
  | nil => exact fun seen => ⟨[], rfl, List.nodup_nil, by simp, by simp⟩
  | cons x l ih =>
    intro seen
    cases hx : seen.any (fun y => scalarEq (.str x) y) with
    | true =>
      obtain ⟨m, hm, hnd, hms, hcov⟩ := ih seen
      refine ⟨m, ?_, hnd, hms, ?_⟩
      · rw [List.map_cons]
        unfold dedupFirstAux
        rw [if_pos hx]
        exact hm
      · intro s hs
        rcases List.mem_cons.mp hs with rfl | hs
        · exact Or.inr hx
        · exact hcov s hs
    | false =>
      obtain ⟨m, hm, hnd, hms, hcov⟩ := ih (Yaml.str x :: seen)
      refine ⟨x :: m, ?_, ?_, ?_, ?_⟩
      · rw [List.map_cons]
        unfold dedupFirstAux
        rw [if_neg (by rw [hx]; exact Bool.false_ne_true)]
        rw [hm, List.map_cons]
      · rw [List.nodup_cons]
        refine ⟨fun hxm => ?_, hnd⟩
        have := hms x hxm
        simp [scalarEq] at this
      · intro s hs
        rcases List.mem_cons.mp hs with rfl | hs
        · exact hx
        · have := hms s hs
          simp only [List.any_cons, Bool.or_eq_false_iff] at this
          exact this.2
      · intro s hs
        rcases List.mem_cons.mp hs with rfl | hs
        · exact Or.inl (List.mem_cons_self _ _)
        · rcases hcov s hs with hsm | hseen
          · exact Or.inl (List.mem_cons_of_mem _ hsm)
          · simp only [List.any_cons, Bool.or_eq_true_iff] at hseen
            rcases hseen with heq | hseen
            · have hsx : s = x := by simpa [scalarEq] using heq
              exact Or.inl (hsx ▸ List.mem_cons_self _ _)
            · exact Or.inr hseen

theorem dedupFirstAux_length_le : ∀ (ks : List Yaml) (seen : List Yaml),
    (dedupFirstAux seen ks).length ≤ ks.length := by
  intro ks
  induction ks with
  | nil => intro seen; exact Nat.le_refl 0
  | cons x ks ih =>
    intro seen
    unfold dedupFirstAux
    cases hx : seen.any (fun y => scalarEq x y) with
    | true =>
      rw [if_pos rfl]
      exact Nat.le_succ_of_le (ih seen)
    | false =>
      rw [if_neg Bool.false_ne_true]
      simp only [List.length_cons]
      exact Nat.succ_le_succ (ih _)

theorem dedupFirstAux_length_eq : ∀ (ks seen : List Yaml),
    (dedupFirstAux seen ks).length = ks.length → dedupFirstAux seen ks = ks := by
  intro ks
  induction ks with
  | nil => intro seen _; rfl
  | cons x ks ih =>
    intro seen hlen
    unfold dedupFirstAux at hlen ⊢
    cases hx : seen.any (fun y => scalarEq x y) with
    | true =>
      rw [if_pos hx] at hlen
      rw [if_pos rfl]
      have hle := dedupFirstAux_length_le ks seen
      simp only [List.length_cons] at hlen
      omega
    | false =>
      rw [if_neg (by rw [hx]; exact Bool.false_ne_true)] at hlen
      rw [if_neg Bool.false_ne_true]
      simp only [List.length_cons, Nat.succ.injEq] at hlen
      rw [ih _ hlen]

theorem dedupFirstAux_map_str_nodup (l : List String) : ∀ (seen : List Yaml),
    l.Nodup →
    (∀ s ∈ l, seen.any (fun y => scalarEq (.str s) y) = false) →
    dedupFirstAux seen (l.map .str) = l.map .str := by
  induction l with
  | nil => intro seen _ _; rfl
  | cons x l ih =>
    intro seen hnd hseen
    rw [List.map_cons]
    unfold dedupFirstAux
    have hx : seen.any (fun y => scalarEq (.str x) y) = false :=
      hseen x (List.mem_cons_self x l)
    rw [if_neg (by rw [hx]; exact Bool.false_ne_true)]
    rw [List.nodup_cons] at hnd
    rw [ih (Yaml.str x :: seen) hnd.2 ?_]
    intro s hs
    simp only [List.any_cons, Bool.or_eq_false_iff]
    constructor
    · have hsx : s ≠ x := fun he => hnd.1 (he ▸ hs)
      simpa [scalarEq] using hsx
    · exact hseen s (List.mem_cons_of_mem x hs)

theorem str_mem_map_str {l : List String} {s : String} (hs : s ∈ l) :
    ((l.map Yaml.str).any (fun y => scalarEq y (.str s))) = true := by
  rw [List.any_eq_true]
  refine ⟨.str s, List.mem_map_of_mem _ hs, ?_⟩
  simp [scalarEq]

theorem save_load_roundtrip (fs : FsView) (pl : PlayList)
    (h1 : pl.pipeline_list.Nodup)
    (hstrB : ∀ k ∈ pl.pipeline_list, Key.isStrB k = true) :
    (∃ d, load_playlist_file fs (some (save_playlist_yaml pl)) =
        .ok ⟨.list (pl.pipeline_list.map (fun k => Yaml.str k.toStr)), d⟩ ∧
        yKeys d = pl.pipeline_list.map (fun k => Yaml.str k.toStr)) ∧
    (∀ stats2 : StatsDict, save_playlist_yaml ⟨pl.pipeline_list, stats2⟩ = save_playlist_yaml pl) := by
  have hstr : ∀ k ∈ pl.pipeline_list, ∃ s, k = Key.str s := by
    intro k hk
    cases k with
    | str s => exact ⟨s, rfl⟩
    | path s => exact absurd (hstrB _ hk) (by simp [Key.isStrB])
  refine ⟨?_, fun stats2 => rfl⟩
  set l : List String := pl.pipeline_list.map Key.toStr with hl_def
  have hmap : pl.pipeline_list.map (fun k => Yaml.str k.toStr) = l.map .str := by
    rw [hl_def, List.map_map]
    rfl
  have hlnd : l.Nodup := by
    rw [hl_def]
    refine h1.map_on ?_
    intro x hx y hy hxy
    obtain ⟨a, rfl⟩ := hstr x hx
    obtain ⟨b, rfl⟩ := hstr y hy
    simpa [Key.toStr] using hxy
  have hread : read_playlist_file (some (save_playlist_yaml pl)) = .ok (.list (l.map .str)) := by
    unfold read_playlist_file save_playlist_yaml lookupStr
    rw [hmap]
    rfl
  have hall : (l.map Yaml.str).all hashableB = true := by
    rw [List.all_eq_true]
    intro y hy
    obtain ⟨s, _, rfl⟩ := List.mem_map.mp hy
    rfl
  have hks : pyIterKeys (.list (l.map .str)) = .ok (l.map .str) := by
    simp [pyIterKeys, hall]
  have hdedup : dedupFirst (l.map .str) = l.map .str :=
    dedupFirstAux_map_str_nodup l [] hlnd (fun s _ => rfl)
  have hlen : (fromkeysNone (l.map .str)).length = (l.map Yaml.str).length := by
    unfold fromkeysNone
    rw [List.length_map, dedupFirst, dedupFirstAux_map_str_nodup l [] hlnd (fun s _ => rfl)]
  have hcov : ∀ s ∈ l, yContains (fromkeysNone (l.map .str)) (.str s) = true := by
    intro s hs
    unfold yContains
    rw [yKeys_fromkeysNone, hdedup]
    exact str_mem_map_str hs
  obtain ⟨d2, hv2, hk2⟩ := verifyLoop_map_str fs l (fromkeysNone (l.map .str)) hcov
  refine ⟨d2, ?_, ?_⟩
  · unfold load_playlist_file
    rw [hmap]
    have hpy : pyLen (Yaml.list (l.map .str)) = .ok (l.map Yaml.str).length := rfl
    simp only [hread, hks, hpy]
    rw [if_pos hlen]
    simp only [hv2]
  · rw [hk2, yKeys_fromkeysNone, hdedup, hmap]

theorem load_ok_raw_invariant (fs : FsView) (file : Option Yaml) (r : RawLoaded)
    (hok : load_playlist_file fs file = .ok r) :
    (yKeys r.pipeline_stats_raw).Nodup ∧
    (∀ xs, r.pipeline_list_raw = .list xs → xs.Nodup ∧ yKeys r.pipeline_stats_raw = xs) := by
  unfold load_playlist_file at hok
  split at hok
  · exact absurd hok (by simp)
  next v hread =>
  split at hok
  · exact absurd hok (by simp)
  next ks hks =>
  split at hok
  · exact absurd hok (by simp)
  next n hn =>
  split at hok
  case isFalse => exact absurd hok (by simp)
  case isTrue hlen =>
  split at hok
  · exact absurd hok (by simp)
  next d hd =>
  have hr : r = ⟨v, d⟩ := by
    cases hok
    rfl
  subst hr
  have hallstr : ∀ e ∈ ks, ∃ s, e = Yaml.str s := verifyLoop_ok_all_str fs ks _ d hd
  obtain ⟨l, rfl⟩ := exists_map_str hallstr
  obtain ⟨m, hm, hmnd, hms, hcov⟩ := dedupFirstAux_str_props l []
  have hcov2 : ∀ s ∈ l, s ∈ m := by
    intro s hs
    rcases hcov s hs with hsm | habs
    · exact hsm
    · exact absurd habs (by simp)
  have hcovd0 : ∀ s ∈ l, yContains (fromkeysNone (l.map .str)) (.str s) = true := by
    intro s hs
    unfold yContains
    rw [yKeys_fromkeysNone]
    unfold dedupFirst
    rw [hm]
    exact str_mem_map_str (hcov2 s hs)
  obtain ⟨d2, hv2, hk2⟩ := verifyLoop_map_str fs l (fromkeysNone (l.map .str)) hcovd0
  have hdd2 : d = d2 := by
    rw [hd] at hv2
    exact Except.ok.inj hv2
  have hkeys : yKeys d = dedupFirst (l.map .str) := by
    rw [hdd2, hk2, yKeys_fromkeysNone]
  have hkeys2 : yKeys d = m.map .str := by
    rw [hkeys]
    unfold dedupFirst
    exact hm
  constructor
  · rw [hkeys2]
    exact hmnd.map (fun a b hab => Yaml.str.inj hab)
  · intro xs hxs
    simp only at hxs
    subst hxs
    -- ks = l.map .str came from pyIterKeys (.list xs); recover ks = xs
    have hksxs : l.map Yaml.str = xs := by
      by_cases hh : xs.all hashableB = true
      · have hpi : pyIterKeys (Yaml.list xs) = .ok xs := by simp [pyIterKeys, hh]
        rw [hpi] at hks
        exact (Except.ok.inj hks).symm
      · have hpi : pyIterKeys (Yaml.list xs) = .error .typeError := by simp [pyIterKeys, hh]
        rw [hpi] at hks
        exact absurd hks (by simp)
    have hnxs : n = xs.length := by
      unfold pyLen at hn
      exact (Except.ok.inj hn).symm
    have hlen2 : (dedupFirst (l.map Yaml.str)).length = (l.map Yaml.str).length := by
      have hfl : (fromkeysNone (l.map Yaml.str)).length = (dedupFirst (l.map Yaml.str)).length := by
        unfold fromkeysNone
        rw [List.length_map]
      rw [← hfl, hlen, hnxs, ← hksxs]
    have hdid : dedupFirst (l.map Yaml.str) = l.map Yaml.str :=
      dedupFirstAux_length_eq _ _ hlen2
    constructor
    · rw [← hksxs, ← hdid]
      unfold dedupFirst
      rw [hm]
      exact hmnd.map (fun a b hab => Yaml.str.inj hab)
    · rw [hkeys, hdid, hksxs]

theorem load_absent_empty (fs : FsView) :
    load_playlist_file fs none = .ok ⟨.list [], []⟩ := rfl

theorem load_missing_key (fs : FsView) (kvs : List (String × Yaml))
    (hk : lookupStr kvs "playlist" = none) :
    load_playlist_file fs (some (.map kvs)) = .error .keyError := by
  have hread : read_playlist_file (some (.map kvs)) = .error .keyError := by
    simp only [read_playlist_file]
    rw [hk]
  unfold load_playlist_file
  simp only [hread]

theorem load_nonmap_typeerror (fs : FsView) (y : Yaml)
    (hy : ∀ kvs, y ≠ .map kvs) :
    load_playlist_file fs (some y) = .error .typeError := by
  have hread : read_playlist_file (some y) = .error .typeError := by
    cases y with
    | map kvs => exact absurd rfl (hy kvs)
    | null => rfl
    | bool b => rfl
    | int n => rfl
    | str s => rfl
    | list xs => rfl
  unfold load_playlist_file
  simp only [hread]

theorem load_scalar_value_typeerror (fs : FsView) (kvs : List (String × Yaml)) (v : Yaml)
    (hk : lookupStr kvs "playlist" = some v)
    (hv : v = .null ∨ (∃ n, v = .int n) ∨ (∃ b, v = .bool b)) :
    load_playlist_file fs (some (.map kvs)) = .error .typeError := by
  have hread : read_playlist_file (some (.map kvs)) = .ok v := by
    simp only [read_playlist_file]
    rw [hk]
  have hiter : pyIterKeys v = .error .typeError := by
    rcases hv with rfl | ⟨n, rfl⟩ | ⟨b, rfl⟩ <;> rfl
  unfold load_playlist_file
  simp only [hread, hiter]


/-! ### Claim theorems -/

/-- C1 counterexample: from the reachable two-entry store `{a, b}` (which
satisfies the invariant), `playlist[1] = "a"` succeeds and leaves the ordered
sequence with a duplicate while the stats cache shrinks to one entry: the
invariant is not preserved by `__setitem__` when the new reference already
occurs at another index. -/
theorem setitem_duplicate_breaks_invariant :
    store_invariant example_store_ab ∧
    (PlayList.setitem fs_empty example_store_ab 1 (Key.str "a")).1 = none ∧
    ¬ store_invariant (PlayList.setitem fs_empty example_store_ab 1 (Key.str "a")).2 ∧
    (PlayList.setitem fs_empty example_store_ab 1 (Key.str "a")).2.pipeline_list =
      [Key.str "a", Key.str "a"] ∧
    (PlayList.setitem fs_empty example_store_ab 1 (Key.str "a")).2.pipeline_stats.length = 1 := by
  decide

/-- C1 (amended): the store invariant (no duplicate references, stats keys in
bijection with the sequence, equal sizes) is preserved by `add_pipeline` and
`remove_pipeline`, by `__setitem__` whenever the new reference does not
already occur at an index other than the one being set, and is established by
every successful `load_playlist_file` (whose `assert` rejects duplicate
sequences); `__setitem__` with a reference present at another index breaks it
(see the counterexample). -/
theorem store_invariant_preserved (fs : FsView) (pl : PlayList) (h : store_invariant pl) :
    (∀ p pl2, PlayList.add_pipeline fs pl p = (none, pl2) → store_invariant pl2) ∧
    (∀ p pl2, PlayList.remove_pipeline pl p = (none, pl2) → store_invariant pl2) ∧
    (∀ i v pl2, v ∉ pl.pipeline_list.eraseIdx i.toNat →
        PlayList.setitem fs pl i v = (none, pl2) → store_invariant pl2) ∧
    (∀ file r, load_playlist_file fs file = .ok r →
        (yKeys r.pipeline_stats_raw).Nodup ∧
        (∀ xs, r.pipeline_list_raw = .list xs → xs.Nodup ∧ yKeys r.pipeline_stats_raw = xs)) :=
  ⟨fun p pl2 => add_ok_invariant fs pl p pl2 h,
   fun p pl2 => remove_ok_invariant pl p pl2 h,
   fun i v pl2 hv hok => set_ok_invariant fs pl i v pl2 h hv hok,
   fun file r hok => load_ok_raw_invariant fs file r hok⟩

/-- Witness for C1: the amended invariant-preservation theorem applied to the
empty store and a concrete `add_pipeline`. -/
theorem store_invariant_preserved_witness :
    store_invariant PlayList.empty ∧
    store_invariant (PlayList.add_pipeline fs_empty PlayList.empty (Key.str "a.yml")).2 :=
  ⟨by decide,
   (store_invariant_preserved fs_empty PlayList.empty (by decide)).1
     (Key.str "a.yml") (PlayList.add_pipeline fs_empty PlayList.empty (Key.str "a.yml")).2 rfl⟩

/-- C2: on a store satisfying the invariant, adding a reference whose
canonical string form is already present fails with the duplicate-reference
`ValueError` and returns with the store exactly as before. -/
theorem add_duplicate_rejected_unchanged (fs : FsView) (pl : PlayList) (p : Key)
    (h : store_invariant pl) (hp : Key.str p.toStr ∈ pl.pipeline_list) :
    PlayList.add_pipeline fs pl p = (some .valueErrorAddDuplicate, pl) :=
  add_duplicate_rejected fs pl p h hp

/-- Witness for C2: adding `"a"` to the store already holding `a, b` fails
and leaves the store unchanged. -/
theorem add_duplicate_rejected_unchanged_witness :
    PlayList.add_pipeline fs_empty example_store_ab (Key.str "a") =
      (some .valueErrorAddDuplicate, example_store_ab) :=
  add_duplicate_rejected_unchanged fs_empty example_store_ab (Key.str "a")
    (by decide) (by decide)

/-- C3: for any store with no duplicate references whose entries are strings
(every entry stored through the API is the canonical string), saving and then
loading the saved document against a fresh store succeeds, and the fresh
store's ordered sequence holds exactly the original's reference strings, in
the original iteration order; the saved document is a function of the
reference sequence only, never of the stats cache. -/
theorem save_load_roundtrip_claim (fs : FsView) (pl : PlayList)
    (h1 : pl.pipeline_list.Nodup)
    (hstrB : ∀ k ∈ pl.pipeline_list, Key.isStrB k = true) :
    (∃ d, load_playlist_file fs (some (save_playlist_yaml pl)) =
        .ok ⟨.list (pl.pipeline_list.map (fun k => Yaml.str k.toStr)), d⟩ ∧
        yKeys d = pl.pipeline_list.map (fun k => Yaml.str k.toStr)) ∧
    (∀ stats2 : StatsDict, save_playlist_yaml ⟨pl.pipeline_list, stats2⟩ = save_playlist_yaml pl) :=
  save_load_roundtrip fs pl h1 hstrB

/-- Witness for C3: the round trip on the concrete two-entry store `{a, b}`
(loaded on a file system where neither file exists). -/
theorem save_load_roundtrip_claim_witness :
    ∃ d, load_playlist_file fs_empty (some (save_playlist_yaml example_store_ab)) =
        .ok ⟨.list [Yaml.str "a", Yaml.str "b"], d⟩ ∧
        yKeys d = [Yaml.str "a", Yaml.str "b"] :=
  (save_load_roundtrip_claim fs_empty example_store_ab (by decide) (by decide)).1

/-- C4 counterexample: `save_playlist_file` opens the configuration file with
mode `"w"`, which truncates it before `yaml.dump` writes anything: after the
opening step the observable file content is empty -- neither the previous
document nor the new one -- so a failure between the two steps does not leave
the previous on-disk content intact. -/
theorem save_truncates_before_write :
    runFsOps old_playlist_doc ((save_ops example_store_ab).take 1) = .emptyContent ∧
    FileContent.emptyContent ≠ old_playlist_doc ∧
    FileContent.emptyContent ≠ runFsOps old_playlist_doc (save_ops example_store_ab) :=
  ⟨rfl, fun h => FileContent.noConfusion h, fun h => FileContent.noConfusion h⟩

/-- C4 (amended): `save_playlist_file` overwrites the configuration file in
place: it truncates on open and then writes the complete new serialization,
so a run of the full operation trace ends with the new document, while an
interruption after the truncating open leaves the file empty (the previous
content is lost, not preserved). -/
theorem save_overwrites_in_place (pl : PlayList) (old : FileContent) :
    runFsOps old (save_ops pl) = .content (save_playlist_yaml pl) ∧
    runFsOps old ((save_ops pl).take 1) = .emptyContent :=
  ⟨rfl, rfl⟩

/-- C5: stats computed for a reference whose file does not exist record
`exist = false` and a null `_mod_datetime`; but reading the `mod_datetime`
property of such stats does not return the absent value -- it fails with
`TypeError`, because `datetime.fromtimestamp` is applied to `None`
unconditionally. -/
theorem mod_datetime_read_fails_for_missing_file :
    (make_pipeline_stats fs_empty "missing.yml").exist = false ∧
    (make_pipeline_stats fs_empty "missing.yml").mod_datetime_val = none ∧
    PipelineStats.mod_datetime (make_pipeline_stats fs_empty "missing.yml") =
      .error .typeError :=
  ⟨rfl, rfl, rfl⟩

/-- C6 counterexample: a configuration file whose `playlist` value is a
mapping -- not a sequence -- loads without any error: the mapping's keys
become the entries.  The claim that a non-sequence `playlist` value fails
with `MalformedConfig` is false on the code. -/
theorem load_mapping_value_accepted :
    load_playlist_file fs_empty (some (.map [("playlist", .map [("a.yml", Yaml.null)])])) =
      .ok ⟨.map [("a.yml", Yaml.null)],
           [(.str "a.yml", some (make_pipeline_stats fs_empty "a.yml"))]⟩ := rfl

/-- C6 (amended): loading an absent configuration file succeeds with the
empty sequence; a file that parses to a non-mapping document fails
(`TypeError`), a mapping without a `playlist` key fails (`KeyError`), and a
`playlist` value that is not iterable -- null, a number, or a boolean --
fails (`TypeError`); an iterable non-sequence value such as a mapping is
accepted (its keys become the entries). -/
theorem load_error_spec (fs : FsView) :
    load_playlist_file fs none = .ok ⟨.list [], []⟩ ∧
    (∀ kvs, lookupStr kvs "playlist" = none →
        load_playlist_file fs (some (.map kvs)) = .error .keyError) ∧
    (∀ y, (∀ kvs, y ≠ .map kvs) →
        load_playlist_file fs (some y) = .error .typeError) ∧
    (∀ kvs v, lookupStr kvs "playlist" = some v →
        (v = .null ∨ (∃ n, v = .int n) ∨ (∃ b, v = .bool b)) →
        load_playlist_file fs (some (.map kvs)) = .error .typeError) :=
  ⟨load_absent_empty fs, load_missing_key fs, load_nonmap_typeerror fs,
   load_scalar_value_typeerror fs⟩

/-- Witness for C6: the loading behaviour at concrete documents -- a mapping
without the key, a non-mapping document, and a null `playlist` value. -/
theorem load_error_spec_witness :
    load_playlist_file fs_empty (some (.map [("other", Yaml.null)])) = .error .keyError ∧
    load_playlist_file fs_empty (some (.list [])) = .error .typeError ∧
    load_playlist_file fs_empty (some (.map [("playlist", Yaml.null)])) = .error .typeError :=
  ⟨(load_error_spec fs_empty).2.1 [("other", Yaml.null)] rfl,
   (load_error_spec fs_empty).2.2.1 (.list []) (fun _ h => Yaml.noConfusion h),
   (load_error_spec fs_empty).2.2.2 [("playlist", Yaml.null)] Yaml.null rfl (Or.inl rfl)⟩

/-- C7: on a store satisfying the invariant, removing an absent reference
fails with the not-found `ValueError` and returns with the store exactly as
before, while removing a present reference succeeds, deleting exactly that
reference from the ordered sequence and dropping exactly its stats entry,
with all other entries and their relative order untouched. -/
theorem remove_pipeline_spec (pl : PlayList) (p : Key) (h : store_invariant pl) :
    (Key.str p.toStr ∉ pl.pipeline_list →
        PlayList.remove_pipeline pl p = (some .valueErrorRemoveMissing, pl)) ∧
    (Key.str p.toStr ∈ pl.pipeline_list →
        PlayList.remove_pipeline pl p =
          (none, ⟨pl.pipeline_list.filter (fun x => ! decide (x = Key.str p.toStr)),
                  pl.pipeline_stats.filter (fun kv => ! decide (kv.1 = Key.str p.toStr))⟩)) :=
  ⟨remove_absent_spec pl p h, remove_present_spec pl p h⟩

/-- Witness for C7: removing the absent `"z"` from the store `{a, b}` fails
and leaves it unchanged; removing the present `"a"` succeeds and keeps
`"b"`. -/
theorem remove_pipeline_spec_witness :
    PlayList.remove_pipeline example_store_ab (Key.str "z") =
      (some .valueErrorRemoveMissing, example_store_ab) ∧
    (PlayList.remove_pipeline example_store_ab (Key.str "a")).2.pipeline_list =
      [Key.str "b"] := by
  refine ⟨(remove_pipeline_spec example_store_ab (Key.str "z") (by decide)).1 (by decide), ?_⟩
  rw [(remove_pipeline_spec example_store_ab (Key.str "a") (by decide)).2 (by decide)]
  decide

/-- C8: `__getitem__` and `__setitem__` on a store satisfying the invariant
fail with the index-range `ValueError` exactly when the index is outside
`[0, length)` (the store coming back unchanged from a failed `__setitem__`,
and `__getitem__` never mutating), and inside the range `__getitem__`
returns the reference at that position while `__setitem__` succeeds. -/
theorem index_access_spec (fs : FsView) (pl : PlayList) (i : Int) (v : Key)
    (h : store_invariant pl) :
    (¬ (0 ≤ i ∧ i < (pl.pipeline_list.length : Int)) →
        PlayList.getitem pl i = .error .valueErrorGetIndex ∧
        PlayList.setitem fs pl i v = (some .valueErrorSetIndex, pl)) ∧
    (∀ hin : 0 ≤ i ∧ i < (pl.pipeline_list.length : Int),
        PlayList.getitem pl i = .ok (pl.pipeline_list.get ⟨i.toNat, by omega⟩) ∧
        (PlayList.setitem fs pl i v).1 = none) := by
  constructor
  · intro hni
    exact ⟨(getitem_spec pl i).1 hni, setitem_out_of_range fs pl i v hni⟩
  · intro hin
    refine ⟨(getitem_spec pl i).2 hin, ?_⟩
    rw [setitem_in_range_spec fs pl i v h hin]

/-- Witness for C8: on the two-entry store `{a, b}`, `playlist[0]` returns
`"a"`, `playlist[2]` and `playlist[-1]` fail with the index error, and a
failed `playlist[5] = "c"` leaves the store unchanged. -/
theorem index_access_spec_witness :
    PlayList.getitem example_store_ab 0 = .ok (Key.str "a") ∧
    PlayList.getitem example_store_ab 2 = .error .valueErrorGetIndex ∧
    PlayList.getitem example_store_ab (-1) = .error .valueErrorGetIndex ∧
    PlayList.setitem fs_empty example_store_ab 5 (Key.str "c") =
      (some .valueErrorSetIndex, example_store_ab) :=
  ⟨((index_access_spec fs_empty example_store_ab 0 (Key.str "c") (by decide)).2
      ⟨by decide, by decide⟩).1,
   ((index_access_spec fs_empty example_store_ab 2 (Key.str "c") (by decide)).1
      (by decide)).1,
   ((index_access_spec fs_empty example_store_ab (-1) (Key.str "c") (by decide)).1
      (by decide)).1,
   ((index_access_spec fs_empty example_store_ab 5 (Key.str "c") (by decide)).1
      (by decide)).2⟩

/-- C9: starting from the empty store, adding `a.yml`, `b.yml`, `c.yml`
succeeds in order, iteration then yields exactly those references in
insertion order, and after removing `b.yml` iteration yields the remaining
two in order. -/
theorem add_iterate_remove_scenario :
    (PlayList.add_pipeline fs_empty PlayList.empty (Key.str "a.yml")).1 = none ∧
    (PlayList.add_pipeline fs_empty
      ((PlayList.add_pipeline fs_empty PlayList.empty (Key.str "a.yml")).2)
      (Key.str "b.yml")).1 = none ∧
    (PlayList.add_pipeline fs_empty
      ((PlayList.add_pipeline fs_empty
        ((PlayList.add_pipeline fs_empty PlayList.empty (Key.str "a.yml")).2)
        (Key.str "b.yml")).2)
      (Key.str "c.yml")).1 = none ∧
    PlayList.iterateAll scenario_abc =
      [Key.str "a.yml", Key.str "b.yml", Key.str "c.yml"] ∧
    (PlayList.remove_pipeline scenario_abc (Key.str "b.yml")).1 = none ∧
    PlayList.iterateAll (PlayList.remove_pipeline scenario_abc (Key.str "b.yml")).2 =
      [Key.str "a.yml", Key.str "c.yml"] := by
  decide

/-- C10: after adding the `Path`-valued reference `Path("a.yml")`,
`__contains__` (which canonicalizes its argument with `str`) answers true for
the same `Path`, but `get_stats` (a raw dict lookup) fails with `KeyError`
for it; `get_stats` succeeds only on the exact canonical string key. -/
theorem contains_canonicalizes_get_stats_does_not :
    PlayList.contains_item store_with_path (Key.path "a.yml") = true ∧
    PlayList.get_stats store_with_path (Key.path "a.yml") = .error .keyError ∧
    PlayList.get_stats store_with_path (Key.str "a.yml") =
      .ok (make_pipeline_stats fs_empty "a.yml") ∧
    PlayList.get_stats store_with_path (Key.str "b.yml") = .error .keyError :=
  ⟨rfl, rfl, rfl, rfl⟩


end PlaylistSpec
